import Mathlib

/-!
Verification of the selection-state contract of the paginated gallery viewer
in `src/App.tsx`.

The component keeps these pieces of state: the currently displayed page
(`artworks : Artwork[]`), the server-reported `totalRecords`, the paginator
window (`first`, `rows`), and the cross-page selection
(`selectedArtworks : { [key: number]: Artwork }`).

Modelling decisions, each justified against the JavaScript semantics of the
source:

* A JavaScript object with integer-like keys iterates its keys in ascending
  numeric order and holds at most one entry per key.  `selectedArtworks` is
  therefore modelled as an association list `List (Nat × Artwork)` whose
  invariant (`SelInv`) is that the keys are strictly ascending; the operations
  `insertKV` (sorted insert-or-replace, mirroring `obj[k] = v`) and key-filter
  deletion (mirroring `delete obj[k]`) preserve it.  `Object.keys(...).length`
  is the list length.

* `handleCustomSelection` is a single sequential async function; its behaviour
  is a pure function of the prior state and of the results of the page fetches
  it performs.  The fetcher is an oracle `fetch : Nat → Option (List Artwork)`
  (page number to records; `none` models a rejected axios promise).  The
  observable outcome is collected in `HCSResult`: the new selection, the toasts
  shown in order, whether the overlay panel was hidden, and the pages fetched
  in order.

* `fetchArtworks` touches `response.data.data` (which evaluates to the `data`
  field, or to `undefined` when the field is missing, without throwing) and
  then `response.data.pagination.total` (which throws when `pagination` is
  missing, landing in the catch block).  `RemoteResponse` records both fields
  as options; the state written by `setArtworks` is `Option (List Artwork)`
  where `none` models `undefined`.
-/

structure Artwork where
  id : Nat
  title : String
  place_of_origin : String
  artist_display : String
  inscriptions : String
  date_start : Int
  date_end : Int
deriving DecidableEq, Repr

/-- The cross-page selection: JavaScript object keyed by artwork id. -/
abbrev Selection := List (Nat × Artwork)

/-- `m[k]` on the JavaScript object: first entry with the given key. -/
def lookupSel : Selection → Nat → Option Artwork
  | [], _ => none
  | (k0, v0) :: rest, k => if k = k0 then some v0 else lookupSel rest k

/-- `m[k] = v` on the JavaScript object: insert or replace, keeping the keys
in ascending numeric order as JavaScript integer-keyed objects do. -/
def insertKV : Selection → Nat → Artwork → Selection
  | [], k, v => [(k, v)]
  | (k0, v0) :: rest, k, v =>
    if k < k0 then (k, v) :: (k0, v0) :: rest
    else if k = k0 then (k, v) :: rest
    else (k0, v0) :: insertKV rest k v

/-- Invariant of the JavaScript object model: keys strictly ascending. -/
abbrev SelInv (sel : Selection) : Prop :=
  (sel.map Prod.fst).Pairwise (· < ·)

/-- Severity of a toast shown via `toast.current?.show`. -/
inductive ToastSeverity where
  | error
  | info
  | success
deriving DecidableEq, Repr

/-- The keep-condition of the deletion sweep in `onSelectionChange`: an entry
is deleted exactly when its id is on the current page and no artwork in the
event value has that id. -/
def selKeep (pageIds : List Nat) (value : List Artwork) (k : Nat) : Bool :=
  decide (¬ (k ∈ pageIds ∧ ¬ ∃ a ∈ value, a.id = k))

/-- `onSelectionChange` from `src/App.tsx`: copy the selection, delete every
entry whose id is on the current page but absent from `event.value`, then
insert/overwrite every artwork of `event.value`. -/
def onSelectionChange (sel : Selection) (pageArtworks value : List Artwork) :
    Selection :=
  let currentPageIds := pageArtworks.map fun a => a.id
  let afterDelete := sel.filter fun kv => selKeep currentPageIds value kv.1
  value.foldl (fun m a => insertKV m a.id a) afterDelete

/-- Ascending insertion used to model
`Object.keys(...).sort((a, b) => Number(a) - Number(b))`. -/
def insertSorted (k : Nat) : List Nat → List Nat
  | [] => [k]
  | x :: xs => if k ≤ x then k :: x :: xs else x :: insertSorted k xs

/-- Numeric ascending sort of the key list. -/
def sortAsc (l : List Nat) : List Nat :=
  l.foldr insertSorted []

/-- The `reduce` in the shrink branch: rebuild an object from a key list,
reading each value from the original selection.  The lookup never misses in
the source (keys come from `Object.keys`); a miss is modelled as a no-op. -/
def rebuildFold (sel acc : Selection) (ks : List Nat) : Selection :=
  ks.foldl (fun acc k =>
    match lookupSel sel k with
    | some v => insertKV acc k v
    | none => acc) acc

/-- Shrink branch of `handleCustomSelection`: keep the `n` lowest-id entries. -/
def shrinkSelection (sel : Selection) (n : Nat) : Selection :=
  rebuildFold sel [] ((sortAsc (sel.map Prod.fst)).take n)

/-- Outcome of the sequential fetch loop of the expansion branch. -/
structure LoopOut where
  collected : List Artwork
  failed : Bool
  pages : List Nat
deriving DecidableEq, Repr

/-- The `for` loop of the expansion branch: starting at `page`, run at most
`k` iterations; on each successful fetch take at most the records still
needed and append them, stopping early when `needed` is reached; on a failed
fetch stop with the failure flag set.  `pages` lists the pages fetched, in
order, the failing page included. -/
def fetchLoop (fetch : Nat → Option (List Artwork)) (needed : Nat) :
    Nat → Nat → List Artwork → LoopOut
  | _, 0, acc => ⟨acc, false, []⟩
  | page, k + 1, acc =>
    match fetch page with
    | none => ⟨acc, true, [page]⟩
    | some pageArtworks =>
      let acc2 := acc ++ pageArtworks.take (needed - acc.length)
      if acc2.length = needed then ⟨acc2, false, [page]⟩
      else
        let out := fetchLoop fetch needed (page + 1) k acc2
        ⟨out.collected, out.failed, page :: out.pages⟩

/-- The expansion branch's whole fetch run: `needed = n - |sel|` records,
`Math.ceil(needed / rows)` iterations, starting at page
`Math.floor(first / rows) + 1` (the currently displayed page). -/
def expRun (fetch : Nat → Option (List Artwork))
    (selLen first rows n : Nat) : LoopOut :=
  fetchLoop fetch (n - selLen) (first / rows + 1) ((n - selLen + rows - 1) / rows) []

/-- The insertion sweep after the loop: `if (!currentSelection[artwork.id])
currentSelection[artwork.id] = artwork` for each collected artwork in order. -/
def addNew (sel : Selection) (collected : List Artwork) : Selection :=
  collected.foldl (fun m a =>
    if (lookupSel m a.id).isSome then m else insertKV m a.id a) sel

/-- How many of the collected artworks actually enter the selection: an
artwork counts only if its id is absent from the selection built so far. -/
def countNew (sel : Selection) : List Artwork → Nat
  | [] => 0
  | a :: rest =>
    if (lookupSel sel a.id).isSome then countNew sel rest
    else countNew (insertKV sel a.id a) rest + 1

/-- Observable outcome of one `handleCustomSelection` call. -/
structure HCSResult where
  selection : Selection
  toasts : List ToastSeverity
  overlayHidden : Bool
  pagesFetched : List Nat
deriving DecidableEq, Repr

/-- `handleCustomSelection` from `src/App.tsx`.  A `none` input returns before
doing anything.  If `n ≤ |sel|` the shrink branch runs (info toast).  Otherwise
the expansion branch fetches pages sequentially, inserts the collected records
that are not already selected, shows an error toast if a fetch failed and a
success toast in every case; either branch then hides the overlay panel. -/
def handleCustomSelection (numberInput : Option Nat) (sel : Selection)
    (first rows : Nat) (fetch : Nat → Option (List Artwork)) : HCSResult :=
  match numberInput with
  | none => ⟨sel, [], false, []⟩
  | some n =>
    if n ≤ sel.length then
      ⟨shrinkSelection sel n, [ToastSeverity.info], true, []⟩
    else if 0 < n - sel.length then
      let run := expRun fetch sel.length first rows n
      ⟨addNew sel run.collected,
        if run.failed then [ToastSeverity.error, ToastSeverity.success]
        else [ToastSeverity.success],
        true, run.pages⟩
    else ⟨sel, [], true, []⟩

/-- A stable backing catalog served page by page: page `p` (1-based) holds the
records at offsets `(p-1)*rows .. p*rows - 1`; every fetch succeeds. -/
def fetchCatalog (catalog : List Artwork) (rows page : Nat) :
    Option (List Artwork) :=
  some ((catalog.drop ((page - 1) * rows)).take rows)

/-- Shape of a successful axios response body as the code consumes it:
`dataField` is the `data` field (`none` when missing, in which case
`response.data.data` evaluates to `undefined` without throwing), and
`paginationTotal` is `pagination.total` (`none` when `pagination` is missing,
in which case accessing `.total` throws). -/
structure RemoteResponse where
  dataField : Option (List Artwork)
  paginationTotal : Option Nat
deriving DecidableEq, Repr

/-- The state written by `fetchArtworks`: the displayed page array (`none`
models the JavaScript `undefined`) and the stored total. -/
structure FetchState where
  artworks : Option (List Artwork)
  totalRecords : Nat
deriving DecidableEq, Repr

/-- `fetchArtworks` from `src/App.tsx`.  A rejected request (`none`) lands in
the catch block: state untouched, error toast.  On a response,
`setArtworks(response.data.data)` runs first; then
`response.data.pagination.total` is read — if `pagination` is missing the
access throws and the catch block shows the error toast, but the page array
has already been overwritten. -/
def fetchArtworks (resp : Option RemoteResponse) (st : FetchState) :
    FetchState × List ToastSeverity :=
  match resp with
  | none => (st, [ToastSeverity.error])
  | some r =>
    match r.paginationTotal with
    | some t => (⟨r.dataField, t⟩, [])
    | none => (⟨r.dataField, st.totalRecords⟩, [ToastSeverity.error])

/-- The selection-change event produced by unchecking the single record `r`
on the current page: the previously checked records of that page minus `r`. -/
def uncheckEvent (sel : Selection) (page : List Artwork) (r : Artwork) :
    List Artwork :=
  page.filter fun a => decide ((lookupSel sel a.id).isSome ∧ a.id ≠ r.id)

/-- An artwork with a given id and blank display fields. -/
def mkArt (i : Nat) : Artwork :=
  ⟨i, "", "", "", "", 0, 0⟩

/-! ### Concrete inputs used by counterexamples and witnesses -/

/-- A selection holding the single record with id 101. -/
def cSelDup : Selection := [(101, mkArt 101)]

/-- A two-record catalog whose first record is already selected in `cSelDup`. -/
def cCatDup : List Artwork := [mkArt 101, mkArt 102]

/-- One already-selected record. -/
def c1Sel : Selection := [(1, mkArt 1)]

/-- A catalog of three fresh records. -/
def c1Cat : List Artwork := [mkArt 2, mkArt 3, mkArt 4]

/-- Selection for the shrink scenario: ids 1, 3, 7. -/
def c5Sel : Selection := [(1, mkArt 1), (3, mkArt 3), (7, mkArt 7)]

/-- The page shown in the reconciliation scenarios. -/
def c4Page : List Artwork := [mkArt 1]

/-- The record stored in the selection under id 999. -/
def c4SelArt : Artwork := ⟨999, "stored", "", "", "", 0, 0⟩

/-- A different record with the same id 999, carried by a change event. -/
def c4EventArt : Artwork := ⟨999, "event", "", "", "", 0, 0⟩

/-- Selection with ids 1 and 2. -/
def c6Sel : Selection := [(1, mkArt 1), (2, mkArt 2)]

/-- Page showing ids 1 and 3. -/
def c6Page : List Artwork := [mkArt 1, mkArt 3]

/-- A fetcher whose page 1 holds one record and whose later pages all fail. -/
def fetchW : Nat → Option (List Artwork) :=
  fun p => if p = 1 then some [mkArt 2] else none


/-! ### Basic lemmas about the object model -/

theorem lookupSel_insertKV_self (m : Selection) (k : Nat) (v : Artwork) :
    lookupSel (insertKV m k v) k = some v := by
  induction m with
  | nil => simp [insertKV, lookupSel]
  | cons kv rest ih =>
    obtain ⟨k0, v0⟩ := kv
    by_cases h1 : k < k0
    · simp [insertKV, lookupSel, h1]
    · by_cases h2 : k = k0
      · simp [insertKV, lookupSel, h1, h2]
      · simp [insertKV, lookupSel, h1, h2, ih]

theorem lookupSel_insertKV_ne (m : Selection) (k k2 : Nat) (v : Artwork)
    (h : k2 ≠ k) : lookupSel (insertKV m k v) k2 = lookupSel m k2 := by
  induction m with
  | nil => simp [insertKV, lookupSel, h]
  | cons kv rest ih =>
    obtain ⟨k0, v0⟩ := kv
    by_cases h1 : k < k0
    · simp [insertKV, lookupSel, h1, h]
    · by_cases h2 : k = k0
      · subst h2
        simp [insertKV, lookupSel, h1, h]
      · by_cases h3 : k2 = k0
        · simp [insertKV, lookupSel, h1, h2, h3]
        · simp [insertKV, lookupSel, h1, h2, h3, ih]

theorem length_insertKV_of_none (m : Selection) (k : Nat) (v : Artwork)
    (h : lookupSel m k = none) : (insertKV m k v).length = m.length + 1 := by
  induction m with
  | nil => simp [insertKV]
  | cons kv rest ih =>
    obtain ⟨k0, v0⟩ := kv
    by_cases h1 : k < k0
    · simp [insertKV, h1]
    · by_cases h2 : k = k0
      · simp [lookupSel, h2] at h
      · simp [lookupSel, h2] at h
        simp [insertKV, h1, h2, ih h]

theorem lookupSel_isSome_iff_mem (m : Selection) (k : Nat) :
    (lookupSel m k).isSome ↔ k ∈ m.map Prod.fst := by
  induction m with
  | nil => simp [lookupSel]
  | cons kv rest ih =>
    obtain ⟨k0, v0⟩ := kv
    by_cases h : k = k0
    · simp [lookupSel, h]
    · simp [lookupSel, h, ih]

theorem isSome_lookupSel_insertKV (m : Selection) (k k2 : Nat) (v : Artwork)
    (h : (lookupSel m k2).isSome) :
    (lookupSel (insertKV m k v) k2).isSome := by
  by_cases hk : k2 = k
  · subst hk
    simp [lookupSel_insertKV_self]
  · rw [lookupSel_insertKV_ne m k k2 v hk]
    exact h

theorem keys_insertKV_subset (m : Selection) (k : Nat) (v : Artwork) :
    (insertKV m k v).map Prod.fst ⊆ k :: m.map Prod.fst := by
  induction m with
  | nil =>
    intro a ha
    simp only [insertKV, List.map_cons, List.map_nil, List.mem_singleton] at ha
    simp [ha]
  | cons kv rest ih =>
    obtain ⟨k0, v0⟩ := kv
    intro a ha
    by_cases h1 : k < k0
    · rw [insertKV, if_pos h1] at ha
      simp only [List.map_cons, List.mem_cons] at ha ⊢
      tauto
    · by_cases h2 : k = k0
      · subst h2
        rw [insertKV, if_neg h1, if_pos rfl] at ha
        simp only [List.map_cons, List.mem_cons] at ha ⊢
        tauto
      · rw [insertKV, if_neg h1, if_neg h2] at ha
        rw [List.map_cons] at ha
        rcases List.mem_cons.1 ha with h | h
        · simp [h]
        · have h4 := ih h
          simp only [List.mem_cons] at h4 ⊢
          tauto

theorem selInv_insertKV (m : Selection) (k : Nat) (v : Artwork)
    (h : SelInv m) : SelInv (insertKV m k v) := by
  induction m with
  | nil => simp [SelInv, insertKV]
  | cons kv rest ih =>
    obtain ⟨k0, v0⟩ := kv
    rw [SelInv, List.map_cons, List.pairwise_cons] at h
    obtain ⟨hhead, htail⟩ := h
    by_cases h1 : k < k0
    · rw [SelInv, insertKV, if_pos h1]
      simp only [List.map_cons, List.pairwise_cons]
      refine ⟨?_, ?_, htail⟩
      · intro b hb
        rcases List.mem_cons.1 hb with h2 | h2
        · omega
        · have := hhead b h2
          omega
      · exact hhead
    · by_cases h2 : k = k0
      · subst h2
        rw [SelInv, insertKV, if_neg h1, if_pos rfl]
        simp only [List.map_cons, List.pairwise_cons]
        exact ⟨hhead, htail⟩
      · rw [SelInv, insertKV, if_neg h1, if_neg h2]
        simp only [List.map_cons, List.pairwise_cons]
        refine ⟨?_, ih htail⟩
        intro b hb
        have h4 := keys_insertKV_subset rest k v hb
        rcases List.mem_cons.1 h4 with h3 | h3
        · subst h3
          omega
        · exact hhead b h3

theorem keys_insertKV_of_isSome (m : Selection) (k : Nat) (v : Artwork)
    (hs : SelInv m) (h : (lookupSel m k).isSome) :
    (insertKV m k v).map Prod.fst = m.map Prod.fst := by
  induction m with
  | nil => simp [lookupSel] at h
  | cons kv rest ih =>
    obtain ⟨k0, v0⟩ := kv
    rw [SelInv, List.map_cons, List.pairwise_cons] at hs
    obtain ⟨hhead, htail⟩ := hs
    by_cases h2 : k = k0
    · subst h2
      simp [insertKV]
    · have hk : (lookupSel rest k).isSome := by
        simpa [lookupSel, h2] using h
      have hmem : k ∈ rest.map Prod.fst := (lookupSel_isSome_iff_mem rest k).1 hk
      have h1 : ¬ k < k0 := by
        have := hhead k hmem
        omega
      rw [insertKV, if_neg h1, if_neg h2]
      simp [ih htail hk]

/-! ### Lemmas about the insertion sweep of the expansion branch -/

theorem addNew_lookup_of_some (sel : Selection) (l : List Artwork)
    (k : Nat) (v : Artwork) (h : lookupSel sel k = some v) :
    lookupSel (addNew sel l) k = some v := by
  induction l generalizing sel with
  | nil => simpa [addNew] using h
  | cons a rest ih =>
    rw [addNew, List.foldl_cons]
    by_cases ha : (lookupSel sel a.id).isSome
    · rw [if_pos ha]
      exact ih sel h
    · rw [if_neg ha]
      refine ih _ ?_
      have hne : k ≠ a.id := by
        intro hk
        subst hk
        rw [h] at ha
        simp at ha
      rw [lookupSel_insertKV_ne sel a.id k a hne]
      exact h

theorem addNew_isSome_of_isSome (sel : Selection) (l : List Artwork)
    (k : Nat) (h : (lookupSel sel k).isSome) :
    (lookupSel (addNew sel l) k).isSome := by
  obtain ⟨v, hv⟩ := Option.isSome_iff_exists.1 h
  rw [addNew_lookup_of_some sel l k v hv]
  rfl

theorem addNew_isSome_of_mem (sel : Selection) (l : List Artwork)
    (a : Artwork) (h : a ∈ l) :
    (lookupSel (addNew sel l) a.id).isSome := by
  induction l generalizing sel with
  | nil => cases h
  | cons b rest ih =>
    rw [addNew, List.foldl_cons]
    rcases List.mem_cons.1 h with h1 | h1
    · subst h1
      by_cases hb : (lookupSel sel a.id).isSome
      · rw [if_pos hb]
        exact addNew_isSome_of_isSome sel rest a.id hb
      · rw [if_neg hb]
        refine addNew_isSome_of_isSome _ rest a.id ?_
        rw [lookupSel_insertKV_self]
        rfl
    · by_cases hb : (lookupSel sel b.id).isSome
      · rw [if_pos hb]
        exact ih sel h1
      · rw [if_neg hb]
        exact ih _ h1

theorem addNew_length (sel : Selection) (l : List Artwork) :
    (addNew sel l).length = sel.length + countNew sel l := by
  induction l generalizing sel with
  | nil => simp [addNew, countNew]
  | cons a rest ih =>
    rw [addNew, List.foldl_cons, countNew]
    by_cases ha : (lookupSel sel a.id).isSome
    · rw [if_pos ha, if_pos ha]
      exact ih sel
    · rw [if_neg ha, if_neg ha]
      have hnone : lookupSel sel a.id = none := by
        cases hl : lookupSel sel a.id with
        | none => rfl
        | some w => rw [hl] at ha; simp at ha
      have h2 := ih (insertKV sel a.id a)
      rw [addNew] at h2
      rw [h2, length_insertKV_of_none sel a.id a hnone]
      omega

theorem countNew_le_length (sel : Selection) (l : List Artwork) :
    countNew sel l ≤ l.length := by
  induction l generalizing sel with
  | nil => simp [countNew]
  | cons a rest ih =>
    rw [countNew]
    by_cases ha : (lookupSel sel a.id).isSome
    · rw [if_pos ha]
      calc countNew sel rest ≤ rest.length := ih sel
        _ ≤ (a :: rest).length := by simp
    · rw [if_neg ha]
      have := ih (insertKV sel a.id a)
      simp only [List.length_cons]
      omega

theorem countNew_of_fresh (sel : Selection) (l : List Artwork)
    (hnd : (l.map fun a => a.id).Nodup)
    (hfresh : ∀ a ∈ l, lookupSel sel a.id = none) :
    countNew sel l = l.length := by
  induction l generalizing sel with
  | nil => simp [countNew]
  | cons a rest ih =>
    rw [countNew]
    have ha : lookupSel sel a.id = none := hfresh a (List.mem_cons_self a rest)
    rw [if_neg (by simp [ha])]
    rw [List.map_cons, List.nodup_cons] at hnd
    obtain ⟨hna, hnd2⟩ := hnd
    have hfresh2 : ∀ b ∈ rest, lookupSel (insertKV sel a.id a) b.id = none := by
      intro b hb
      have hne : b.id ≠ a.id := by
        intro he
        exact hna (he ▸ List.mem_map_of_mem (fun a => a.id) hb)
      rw [lookupSel_insertKV_ne sel a.id b.id a hne]
      exact hfresh b (List.mem_cons_of_mem a hb)
    simp [ih (insertKV sel a.id a) hnd2 hfresh2]

/-! ### Branch-reduction lemmas for handleCustomSelection -/

theorem hcs_expand (sel : Selection) (first rows n : Nat)
    (fetch : Nat → Option (List Artwork)) (h : sel.length < n) :
    handleCustomSelection (some n) sel first rows fetch =
      ⟨addNew sel (expRun fetch sel.length first rows n).collected,
        if (expRun fetch sel.length first rows n).failed then
          [ToastSeverity.error, ToastSeverity.success]
        else [ToastSeverity.success],
        true, (expRun fetch sel.length first rows n).pages⟩ := by
  rw [handleCustomSelection, if_neg (by omega), if_pos (by omega)]

theorem hcs_shrink (sel : Selection) (first rows n : Nat)
    (fetch : Nat → Option (List Artwork)) (h : n ≤ sel.length) :
    handleCustomSelection (some n) sel first rows fetch =
      ⟨shrinkSelection sel n, [ToastSeverity.info], true, []⟩ := by
  rw [handleCustomSelection, if_pos h]

/-! ### Lemmas about the sequential fetch loop -/

theorem fetchLoop_pages_range (fetch : Nat → Option (List Artwork))
    (needed : Nat) :
    ∀ (k page : Nat) (acc : List Artwork),
      ∃ len, (fetchLoop fetch needed page k acc).pages = List.range' page len := by
  intro k
  induction k with
  | zero =>
    intro page acc
    exact ⟨0, rfl⟩
  | succ k ih =>
    intro page acc
    rw [fetchLoop]
    cases hf : fetch page with
    | none =>
      exact ⟨1, by simp [List.range'_succ]⟩
    | some pageArtworks =>
      dsimp only
      by_cases hq : (acc ++ pageArtworks.take (needed - acc.length)).length = needed
      · rw [if_pos hq]
        exact ⟨1, by simp [List.range'_succ]⟩
      · rw [if_neg hq]
        obtain ⟨len, hlen⟩ := ih (page + 1) (acc ++ pageArtworks.take (needed - acc.length))
        exact ⟨len + 1, by simp [hlen, List.range'_succ]⟩

theorem fetchLoop_failed_shape (fetch : Nat → Option (List Artwork))
    (needed : Nat) :
    ∀ (k page : Nat) (acc : List Artwork),
      (fetchLoop fetch needed page k acc).failed = true →
      ∃ len, (fetchLoop fetch needed page k acc).pages = List.range' page (len + 1)
        ∧ fetch (page + len) = none := by
  intro k
  induction k with
  | zero =>
    intro page acc h
    simp [fetchLoop] at h
  | succ k ih =>
    intro page acc h
    rw [fetchLoop] at h ⊢
    cases hf : fetch page with
    | none =>
      refine ⟨0, ?_, by simpa using hf⟩
      simp [hf, List.range'_succ]
    | some pageArtworks =>
      rw [hf] at h
      dsimp only at h ⊢
      by_cases hq : (acc ++ pageArtworks.take (needed - acc.length)).length = needed
      · rw [if_pos hq] at h
        simp at h
      · rw [if_neg hq] at h ⊢
        dsimp only at h
        obtain ⟨len, hp, hn⟩ := ih (page + 1) (acc ++ pageArtworks.take (needed - acc.length)) h
        refine ⟨len + 1, ?_, ?_⟩
        · simp only [hp, List.range'_succ]
        · have harith : page + (len + 1) = page + 1 + len := by omega
          rw [harith]
          exact hn

theorem fetchLoop_length_le (fetch : Nat → Option (List Artwork))
    (needed : Nat) :
    ∀ (k page : Nat) (acc : List Artwork), acc.length ≤ needed →
      (fetchLoop fetch needed page k acc).collected.length ≤ needed := by
  intro k
  induction k with
  | zero =>
    intro page acc h
    simpa [fetchLoop] using h
  | succ k ih =>
    intro page acc h
    rw [fetchLoop]
    cases hf : fetch page with
    | none => simpa using h
    | some pageArtworks =>
      dsimp only
      have hlen2 : (acc ++ pageArtworks.take (needed - acc.length)).length ≤ needed := by
        rw [List.length_append, List.length_take]
        omega
      by_cases hq : (acc ++ pageArtworks.take (needed - acc.length)).length = needed
      · rw [if_pos hq]
        simpa using hlen2
      · rw [if_neg hq]
        exact ih (page + 1) _ hlen2

/-! ### Arithmetic and range helpers -/

theorem needed_le_ceil_mul (needed rows : Nat) (hrows : 0 < rows) :
    needed ≤ ((needed + rows - 1) / rows) * rows := by
  have h1 := Nat.div_add_mod (needed + rows - 1) rows
  have h2 : (needed + rows - 1) % rows < rows := Nat.mod_lt _ hrows
  rw [Nat.mul_comm]
  generalize hB : rows * ((needed + rows - 1) / rows) = B at h1
  generalize hR : (needed + rows - 1) % rows = R at h1 h2
  omega

theorem mem_range'_le (len : Nat) :
    ∀ s q : Nat, q ∈ List.range' s (len + 1) → q ≤ s + len := by
  induction len with
  | zero =>
    intro s q h
    rw [List.range'_succ] at h
    simp at h
    omega
  | succ len ih =>
    intro s q h
    rw [List.range'_succ] at h
    rcases List.mem_cons.1 h with h1 | h1
    · omega
    · have := ih (s + 1) q h1
      omega

/-! ### Content of the loop when fetching a stable catalog -/

theorem fetchLoop_catalog (catalog : List Artwork) (rows : Nat)
    (hrows : 0 < rows) (needed : Nat) :
    ∀ (k m : Nat) (acc : List Artwork), acc.length ≤ needed →
      min (needed - acc.length) (catalog.drop (m * rows)).length ≤ k * rows →
      (fetchLoop (fetchCatalog catalog rows) needed (m + 1) k acc).collected
        = acc ++ (catalog.drop (m * rows)).take (needed - acc.length) := by
  intro k
  induction k with
  | zero =>
    intro m acc h1 h2
    rw [fetchLoop]
    simp only [Nat.zero_mul, Nat.le_zero, Nat.min_eq_zero_iff] at h2
    rcases h2 with h2 | h2
    · simp [h2]
    · rw [List.length_eq_zero] at h2
      simp [h2]
  | succ k ih =>
    intro m acc h1 h2
    have hfetch : fetchCatalog catalog rows (m + 1)
        = some ((catalog.drop (m * rows)).take rows) := by
      simp [fetchCatalog]
    rw [fetchLoop, hfetch]
    dsimp only
    set d := catalog.drop (m * rows) with hd
    have ht : List.take (needed - acc.length) (List.take rows d)
        = List.take (min (needed - acc.length) rows) d := by
      rw [List.take_take]
    rw [ht]
    set rem := needed - acc.length with hrem
    have haccrem : acc.length + rem = needed := by omega
    have hL : (List.take (min rem rows) d).length = min (min rem rows) d.length :=
      List.length_take _ _
    by_cases hq : (acc ++ List.take (min rem rows) d).length = needed
    · rw [if_pos hq]
      rw [List.length_append, hL] at hq
      congr 1
      rcases Nat.le_total d.length (min rem rows) with hc | hc
      · have h3 : d.length ≤ rem := by omega
        rw [List.take_of_length_le hc, List.take_of_length_le h3]
      · have h3 : min rem rows = rem := by omega
        rw [h3]
    · rw [if_neg hq]
      dsimp only
      rw [List.length_append, hL] at hq
      have hlt : min (min rem rows) d.length < rem := by omega
      have hd2 : catalog.drop ((m + 1) * rows) = d.drop rows := by
        have harg : (m + 1) * rows = m * rows + rows := by ring
        rw [harg, hd, List.drop_drop]
      have hlen2 : (acc ++ List.take (min rem rows) d).length
          = acc.length + min (min rem rows) d.length := by
        rw [List.length_append, hL]
      have hstep := ih (m + 1) (acc ++ List.take (min rem rows) d)
        (by rw [hlen2]; omega)
        (by
          rw [hlen2, hd2]
          have hdl : (d.drop rows).length = d.length - rows := List.length_drop rows d
          rw [Nat.succ_mul] at h2
          generalize k * rows = B at h2 ⊢
          omega)
      rw [hd2] at hstep
      have rem2 : needed - (acc ++ List.take (min rem rows) d).length
          = rem - min (min rem rows) d.length := by
        rw [hlen2]
        omega
      rw [rem2] at hstep
      rw [hstep, List.append_assoc]
      congr 1
      rcases Nat.le_total d.length (min rem rows) with hc | hc
      · have h5 : d.drop rows = [] :=
          List.drop_eq_nil_of_le (le_trans hc (min_le_right rem rows))
        have h6 : d.length ≤ rem := by omega
        rw [h5, List.take_of_length_le hc, List.take_of_length_le h6]
        simp
      · have h6 : min rem rows = rows := by omega
        have h7 : min (min rem rows) d.length = rows := by omega
        rw [h7, h6, ← List.take_add]
        congr 1
        omega

/-! ### The shrink branch keeps the lowest-id prefix -/

theorem sortAsc_eq_self (l : List Nat) (h : l.Pairwise (· < ·)) :
    sortAsc l = l := by
  induction l with
  | nil => rfl
  | cons x xs ih =>
    rw [List.pairwise_cons] at h
    obtain ⟨hx, hxs⟩ := h
    rw [sortAsc, List.foldr_cons]
    have hrec : xs.foldr insertSorted [] = xs := ih hxs
    rw [hrec]
    cases xs with
    | nil => rfl
    | cons y ys =>
      have hxy : x ≤ y := le_of_lt (hx y (List.mem_cons_self y ys))
      rw [insertSorted, if_pos hxy]

theorem rebuildFold_cons_step (sel acc : Selection) (k : Nat) (ks : List Nat) :
    rebuildFold sel acc (k :: ks)
      = rebuildFold sel
          (match lookupSel sel k with
            | some v => insertKV acc k v
            | none => acc) ks := rfl

theorem rebuildFold_cons (sel : Selection) (k : Nat) (v : Artwork) :
    ∀ (ks : List Nat) (acc : Selection), (∀ k2 ∈ ks, k < k2) →
      rebuildFold sel ((k, v) :: acc) ks = (k, v) :: rebuildFold sel acc ks := by
  intro ks
  induction ks with
  | nil => intro acc h; rfl
  | cons k2 rest ih =>
    intro acc h
    have hk2 : k < k2 := h k2 (List.mem_cons_self k2 rest)
    rw [rebuildFold, List.foldl_cons]
    rw [rebuildFold, List.foldl_cons]
    cases hl : lookupSel sel k2 with
    | none =>
      exact ih acc fun a ha => h a (List.mem_cons_of_mem k2 ha)
    | some v2 =>
      dsimp only
      have hins : insertKV ((k, v) :: acc) k2 v2 = (k, v) :: insertKV acc k2 v2 := by
        rw [insertKV, if_neg (by omega), if_neg (by omega)]
      rw [hins]
      exact ih (insertKV acc k2 v2) fun a ha => h a (List.mem_cons_of_mem k2 ha)

theorem rebuildFold_congr (sel1 sel2 : Selection) :
    ∀ (ks : List Nat) (acc : Selection),
      (∀ k ∈ ks, lookupSel sel1 k = lookupSel sel2 k) →
      rebuildFold sel1 acc ks = rebuildFold sel2 acc ks := by
  intro ks
  induction ks with
  | nil => intro acc h; rfl
  | cons k rest ih =>
    intro acc h
    rw [rebuildFold, List.foldl_cons, rebuildFold, List.foldl_cons]
    rw [h k (List.mem_cons_self k rest)]
    cases lookupSel sel2 k with
    | none => exact ih acc fun a ha => h a (List.mem_cons_of_mem k ha)
    | some v => exact ih (insertKV acc k v) fun a ha => h a (List.mem_cons_of_mem k ha)

theorem shrink_take (sel : Selection) (hinv : SelInv sel) :
    ∀ n : Nat, n ≤ sel.length →
      rebuildFold sel [] ((sel.map Prod.fst).take n) = sel.take n := by
  induction sel with
  | nil =>
    intro n hn
    have : n = 0 := by simpa using hn
    subst this
    rfl
  | cons kv rest ih =>
    obtain ⟨k, v⟩ := kv
    intro n hn
    cases n with
    | zero => rfl
    | succ n =>
      rw [SelInv, List.map_cons, List.pairwise_cons] at hinv
      obtain ⟨hhead, htail⟩ := hinv
      rw [List.map_cons, List.take_succ_cons, List.take_succ_cons]
      have hself : lookupSel ((k, v) :: rest) k = some v := by
        simp [lookupSel]
      rw [rebuildFold_cons_step, hself]
      dsimp only
      have hins : insertKV [] k v = [(k, v)] := rfl
      rw [hins]
      have hmem : ∀ k2 ∈ (rest.map Prod.fst).take n, k < k2 := by
        intro k2 hk2
        exact hhead k2 (List.take_subset n (rest.map Prod.fst) hk2)
      have hcons := rebuildFold_cons ((k, v) :: rest) k v
        ((rest.map Prod.fst).take n) [] hmem
      rw [hcons]
      have hcongr := rebuildFold_congr ((k, v) :: rest) rest
        ((rest.map Prod.fst).take n) []
        (by
          intro k2 hk2
          have hlt : k < k2 := hmem k2 hk2
          rw [lookupSel, if_neg (by omega)])
      rw [hcongr, ih htail n (by simpa using hn)]

/-! ### Lemmas about the reconciliation step -/

theorem lookupSel_filter_of_kept (p : Nat × Artwork → Bool) (k : Nat) :
    ∀ m : Selection, (∀ kv ∈ m, kv.1 = k → p kv = true) →
      lookupSel (m.filter p) k = lookupSel m k := by
  intro m
  induction m with
  | nil => intro h; rfl
  | cons kv rest ih =>
    obtain ⟨k0, v0⟩ := kv
    intro h
    by_cases hk : k = k0
    · subst hk
      have hp : p (k, v0) = true := h (k, v0) (List.mem_cons_self _ _) rfl
      rw [List.filter_cons_of_pos hp]
      simp [lookupSel]
    · cases hp : p (k0, v0) with
      | true =>
        rw [List.filter_cons_of_pos hp]
        rw [lookupSel, if_neg hk, lookupSel, if_neg hk]
        exact ih fun kv hkv hk2 => h kv (List.mem_cons_of_mem _ hkv) hk2
      | false =>
        rw [List.filter_cons_of_neg (by simp [hp])]
        rw [lookupSel, if_neg hk]
        exact ih fun kv hkv hk2 => h kv (List.mem_cons_of_mem _ hkv) hk2

theorem lookupSel_foldl_insert_of_ne (k : Nat) :
    ∀ (value : List Artwork) (m0 : Selection), (∀ a ∈ value, a.id ≠ k) →
      lookupSel (value.foldl (fun m a => insertKV m a.id a) m0) k
        = lookupSel m0 k := by
  intro value
  induction value with
  | nil => intro m0 h; rfl
  | cons a rest ih =>
    intro m0 h
    rw [List.foldl_cons]
    rw [ih (insertKV m0 a.id a) fun b hb => h b (List.mem_cons_of_mem a hb)]
    exact lookupSel_insertKV_ne m0 a.id k a
      fun he => h a (List.mem_cons_self a rest) he.symm

theorem mapFst_filter_keyPred (q : Nat → Bool) :
    ∀ m : Selection,
      (m.filter fun kv => q kv.1).map Prod.fst = (m.map Prod.fst).filter q := by
  intro m
  induction m with
  | nil => rfl
  | cons kv rest ih =>
    obtain ⟨k0, v0⟩ := kv
    cases hq : q k0 with
    | true =>
      rw [List.filter_cons_of_pos (by simpa using hq), List.map_cons,
        List.map_cons, List.filter_cons_of_pos hq, ih]
    | false =>
      rw [List.filter_cons_of_neg (by simpa using hq), List.map_cons,
        List.filter_cons_of_neg (by simpa using hq), ih]

theorem mapFst_filter_ne (r : Nat) (m : Selection) :
    (m.filter fun kv => decide (kv.1 ≠ r)).map Prod.fst
      = (m.map Prod.fst).filter fun k => decide (k ≠ r) :=
  mapFst_filter_keyPred (fun k => decide (k ≠ r)) m

theorem selInv_filter (p : Nat × Artwork → Bool) (m : Selection)
    (h : SelInv m) : SelInv (m.filter p) := by
  rw [SelInv]
  have hsub : List.Sublist ((m.filter p).map Prod.fst) (m.map Prod.fst) :=
    (List.filter_sublist m).map Prod.fst
  exact h.sublist hsub

theorem keys_foldl_insert_of_isSome :
    ∀ (value : List Artwork) (m0 : Selection), SelInv m0 →
      (∀ a ∈ value, (lookupSel m0 a.id).isSome) →
      (value.foldl (fun m a => insertKV m a.id a) m0).map Prod.fst
        = m0.map Prod.fst := by
  intro value
  induction value with
  | nil => intro m0 hs h; rfl
  | cons a rest ih =>
    intro m0 hs h
    rw [List.foldl_cons]
    have ha : (lookupSel m0 a.id).isSome := h a (List.mem_cons_self a rest)
    rw [ih (insertKV m0 a.id a) (selInv_insertKV m0 a.id a hs)
      fun b hb => isSome_lookupSel_insertKV m0 a.id b.id a (h b (List.mem_cons_of_mem a hb))]
    exact keys_insertKV_of_isSome m0 a.id a hs ha

/-! ### Unfolding helpers -/

theorem expRun_def (fetch : Nat → Option (List Artwork))
    (selLen first rows n : Nat) :
    expRun fetch selLen first rows n
      = fetchLoop fetch (n - selLen) (first / rows + 1)
          ((n - selLen + rows - 1) / rows) [] := rfl

theorem onSelectionChange_eq (sel : Selection) (page value : List Artwork) :
    onSelectionChange sel page value
      = value.foldl (fun m a => insertKV m a.id a)
          (sel.filter fun kv => selKeep (page.map fun a => a.id) value kv.1) := rfl

/-- When every fetch is served from a stable catalog, the collected run is the
contiguous slice of the catalog that starts at the offset of the currently
displayed page, truncated to the `needed` count. -/
theorem expRun_catalog (selLen first rows n : Nat) (catalog : List Artwork)
    (hrows : 0 < rows) :
    (expRun (fetchCatalog catalog rows) selLen first rows n).collected
      = (catalog.drop (first / rows * rows)).take (n - selLen) := by
  rw [expRun_def]
  have h := fetchLoop_catalog catalog rows hrows (n - selLen)
    ((n - selLen + rows - 1) / rows) (first / rows) []
    (by simp)
    (by
      simp only [List.length_nil, Nat.sub_zero]
      calc min (n - selLen) (catalog.drop (first / rows * rows)).length
          ≤ n - selLen := min_le_left _ _
        _ ≤ ((n - selLen + rows - 1) / rows) * rows :=
            needed_le_ceil_mul _ rows hrows)
  simpa using h

/-! ### C10 -/

/-- C10: when the numeric input is null, `handleCustomSelection` returns
before doing anything: the selection is unchanged, no page is fetched, no
toast is shown and the overlay panel is not hidden. -/
theorem c10_null_input_noop (sel : Selection) (first rows : Nat)
    (fetch : Nat → Option (List Artwork)) :
    handleCustomSelection none sel first rows fetch = ⟨sel, [], false, []⟩ := rfl

/-! ### C8 -/

/-- C8 counterexample: a response that carries a `data` array but no
`pagination` block makes `fetchArtworks` surface an error toast, yet the
displayed page array has already been overwritten — the claim that the page
array stays unchanged on every failing fetch is false. -/
theorem c8_counterexample :
    (fetchArtworks (some ⟨some [mkArt 2], none⟩) ⟨some [mkArt 1], 5⟩).2
      = [ToastSeverity.error]
    ∧ (fetchArtworks (some ⟨some [mkArt 2], none⟩) ⟨some [mkArt 1], 5⟩).1.artworks
      ≠ (⟨some [mkArt 1], 5⟩ : FetchState).artworks := by
  constructor
  · rfl
  · decide

/-- C8 (amended): when the remote call itself fails (a rejected request), the
displayed page array and the stored total are unchanged and an error toast
is surfaced; when the call succeeds but the response has no `pagination`
block, the stored total is still unchanged and an error toast is surfaced,
but the page array is overwritten with the response's `data` field first. -/
theorem c8_network_failure_state (st : FetchState) (d : Option (List Artwork)) :
    fetchArtworks none st = (st, [ToastSeverity.error])
    ∧ fetchArtworks (some ⟨d, none⟩) st
        = (⟨d, st.totalRecords⟩, [ToastSeverity.error]) :=
  ⟨rfl, rfl⟩

/-! ### C9 -/

/-- C9: during bulk expansion an already-selected identifier is never
overwritten — the record stored under it after the expansion is the record
stored before, whatever the fetched pages returned. -/
theorem c9_no_overwrite (sel : Selection) (first rows n : Nat)
    (fetch : Nat → Option (List Artwork)) (k : Nat) (v : Artwork)
    (hgt : sel.length < n) (hk : lookupSel sel k = some v) :
    lookupSel (handleCustomSelection (some n) sel first rows fetch).selection k
      = some v := by
  rw [hcs_expand sel first rows n fetch hgt]
  exact addNew_lookup_of_some sel _ k v hk

/-- C9 witness: expanding from one selected record over pages that return a
record with the same id leaves the stored record intact. -/
theorem c9_witness :
    lookupSel (handleCustomSelection (some 2) [(2, mkArt 2)] 0 1
      fetchW).selection 2 = some (mkArt 2) :=
  c9_no_overwrite [(2, mkArt 2)] 0 1 2 fetchW 2 (mkArt 2)
    (by decide) (by decide)

/-! ### C5 -/

/-- C5: with a non-empty selection and a target at most the current size, the
shrink branch yields exactly the `target` entries of lowest numeric id: the
result is the sorted prefix of the prior selection, has length `target`, and
its key list is the ascending-sorted key list truncated to `target`. -/
theorem c5_shrink_lowest (sel : Selection) (first rows n : Nat)
    (fetch : Nat → Option (List Artwork))
    (hinv : SelInv sel) (hne : sel ≠ []) (hn : n ≤ sel.length) :
    (handleCustomSelection (some n) sel first rows fetch).selection = sel.take n
    ∧ (handleCustomSelection (some n) sel first rows fetch).selection.length = n
    ∧ (handleCustomSelection (some n) sel first rows fetch).selection.map Prod.fst
        = (sortAsc (sel.map Prod.fst)).take n := by
  have hsel : (handleCustomSelection (some n) sel first rows fetch).selection
      = sel.take n := by
    rw [hcs_shrink sel first rows n fetch hn]
    show shrinkSelection sel n = sel.take n
    rw [shrinkSelection, sortAsc_eq_self _ hinv]
    exact shrink_take sel hinv n hn
  refine ⟨hsel, ?_, ?_⟩
  · rw [hsel, List.length_take]
    omega
  · rw [hsel, sortAsc_eq_self _ hinv, List.map_take]

/-- C5 witness: shrinking the selection with ids 1, 3, 7 to target 2 keeps
exactly the entries with ids 1 and 3. -/
theorem c5_witness :
    (handleCustomSelection (some 2) c5Sel 0 12 (fun _ => none)).selection
      = c5Sel.take 2
    ∧ (handleCustomSelection (some 2) c5Sel 0 12 (fun _ => none)).selection.length = 2
    ∧ (handleCustomSelection (some 2) c5Sel 0 12 (fun _ => none)).selection.map Prod.fst
        = (sortAsc (c5Sel.map Prod.fst)).take 2 :=
  c5_shrink_lowest c5Sel 0 12 2 (fun _ => none) (by decide) (by decide) (by decide)

/-! ### C4 -/

/-- C4 counterexample: a change event can carry a record whose id is not on
the current page; `onSelectionChange` then overwrites that off-page entry, so
entries off the current page are not always left unchanged. -/
theorem c4_counterexample :
    (999 ∉ c4Page.map fun a => a.id)
    ∧ lookupSel (onSelectionChange [(999, c4SelArt)] c4Page [c4EventArt]) 999
      ≠ lookupSel [(999, c4SelArt)] 999 := by
  exact ⟨by decide, by decide⟩

/-- C4 (amended): a selection entry whose identifier is neither on the
current page nor among the ids of the event's checked records is unchanged
by `onSelectionChange`; in particular, when every checked record lies on the
current page, selections made on other pages survive. -/
theorem c4_offpage_frame (sel : Selection) (page value : List Artwork) (k : Nat)
    (hpage : k ∉ page.map fun a => a.id) (hval : ∀ a ∈ value, a.id ≠ k) :
    lookupSel (onSelectionChange sel page value) k = lookupSel sel k := by
  rw [onSelectionChange_eq]
  have h1 : lookupSel (sel.filter fun kv =>
      selKeep (page.map fun a => a.id) value kv.1) k = lookupSel sel k := by
    apply lookupSel_filter_of_kept
    intro kv hkv hk
    rw [selKeep, decide_eq_true_eq]
    intro hcontr
    exact hpage (hk ▸ hcontr.1)
  exact (lookupSel_foldl_insert_of_ne k value _ hval).trans h1

/-- C4 witness: an entry with id 999, off the shown page and not mentioned by
the event, is untouched. -/
theorem c4_witness :
    lookupSel (onSelectionChange [(999, c4SelArt)] c4Page []) 999
      = lookupSel [(999, c4SelArt)] 999 :=
  c4_offpage_frame [(999, c4SelArt)] c4Page [] 999 (by decide) (by decide)

/-! ### C6 -/

/-- C6: unchecking the single record `r` on the current page (the event whose
checked set is the previously checked records of that page minus `r`)
removes exactly `r`'s identifier from the selection: the resulting key list
is the prior key list with `r.id` filtered out, every other entry kept. -/
theorem c6_uncheck_removes_exactly (sel : Selection) (page : List Artwork)
    (r : Artwork) (hinv : SelInv sel) (hr : r ∈ page)
    (hsel : (lookupSel sel r.id).isSome) :
    (onSelectionChange sel page (uncheckEvent sel page r)).map Prod.fst
      = (sel.map Prod.fst).filter fun k => decide (k ≠ r.id) := by
  have hfc : (sel.filter fun kv =>
        selKeep (page.map fun a => a.id) (uncheckEvent sel page r) kv.1)
      = sel.filter fun kv => decide (kv.1 ≠ r.id) := by
    apply List.filter_congr
    intro kv hkv
    by_cases hk : kv.1 = r.id
    · have hL : selKeep (page.map fun a => a.id) (uncheckEvent sel page r) kv.1
          = false := by
        rw [hk, selKeep, decide_eq_false_iff_not, not_not]
        constructor
        · exact List.mem_map.2 ⟨r, hr, rfl⟩
        · rintro ⟨a, ha, haid⟩
          rw [uncheckEvent] at ha
          have h2 := (List.mem_filter.1 ha).2
          simp only [decide_eq_true_eq] at h2
          exact h2.2 haid
      rw [hL, hk]
      simp
    · have hL : selKeep (page.map fun a => a.id) (uncheckEvent sel page r) kv.1
          = true := by
        rw [selKeep, decide_eq_true_eq]
        rintro ⟨hmem, hno⟩
        obtain ⟨a, ha, haid⟩ := List.mem_map.1 hmem
        apply hno
        refine ⟨a, ?_, haid⟩
        rw [uncheckEvent, List.mem_filter]
        refine ⟨ha, ?_⟩
        simp only [decide_eq_true_eq]
        refine ⟨?_, ?_⟩
        · rw [haid]
          exact (lookupSel_isSome_iff_mem sel kv.1).2
            (List.mem_map_of_mem Prod.fst hkv)
        · rw [haid]
          exact hk
      rw [hL]
      simp [hk]
  have hval : ∀ a ∈ uncheckEvent sel page r,
      (lookupSel (sel.filter fun kv => decide (kv.1 ≠ r.id)) a.id).isSome := by
    intro a ha
    rw [uncheckEvent] at ha
    have h2 := (List.mem_filter.1 ha).2
    simp only [decide_eq_true_eq] at h2
    rw [lookupSel_isSome_iff_mem, mapFst_filter_ne, List.mem_filter]
    exact ⟨(lookupSel_isSome_iff_mem sel a.id).1 h2.1, by simp [h2.2]⟩
  rw [onSelectionChange_eq, hfc]
  rw [keys_foldl_insert_of_isSome (uncheckEvent sel page r)
    (sel.filter fun kv => decide (kv.1 ≠ r.id))
    (selInv_filter _ sel hinv) hval]
  exact mapFst_filter_ne r.id sel

/-- C6 witness: on a page showing ids 1 and 3 with ids 1 and 2 selected,
unchecking the record with id 1 leaves exactly the entry with id 2. -/
theorem c6_witness :
    (onSelectionChange c6Sel c6Page (uncheckEvent c6Sel c6Page (mkArt 1))).map
        Prod.fst
      = (c6Sel.map Prod.fst).filter fun k => decide (k ≠ (mkArt 1).id) :=
  c6_uncheck_removes_exactly c6Sel c6Page (mkArt 1)
    (by decide) (by decide) (by decide)

/-! ### C7 -/

/-- C7: when a fetch fails mid-sequence during bulk expansion, every record
collected from the earlier successful fetches still ends up in the selection
(partial success kept, not rolled back), an error toast is surfaced, and the
fetched pages form a consecutive run that stops at the failing page — no
page beyond it is fetched. -/
theorem c7_partial_failure (sel : Selection) (first rows n : Nat)
    (fetch : Nat → Option (List Artwork))
    (hgt : sel.length < n)
    (hfail : (expRun fetch sel.length first rows n).failed = true) :
    (∀ a ∈ (expRun fetch sel.length first rows n).collected,
      (lookupSel
        (handleCustomSelection (some n) sel first rows fetch).selection
        a.id).isSome)
    ∧ ToastSeverity.error ∈ (handleCustomSelection (some n) sel first rows fetch).toasts
    ∧ ∃ len, (handleCustomSelection (some n) sel first rows fetch).pagesFetched
          = List.range' (first / rows + 1) (len + 1)
        ∧ fetch (first / rows + 1 + len) = none
        ∧ ∀ q ∈ (handleCustomSelection (some n) sel first rows fetch).pagesFetched,
            q ≤ first / rows + 1 + len := by
  rw [hcs_expand sel first rows n fetch hgt]
  rw [expRun_def] at hfail ⊢
  dsimp only
  refine ⟨?_, ?_, ?_⟩
  · intro a ha
    exact addNew_isSome_of_mem sel _ a ha
  · rw [if_pos hfail]
    simp
  · obtain ⟨len, hp, hn2⟩ := fetchLoop_failed_shape fetch (n - sel.length)
      ((n - sel.length + rows - 1) / rows) (first / rows + 1) [] hfail
    refine ⟨len, hp, hn2, ?_⟩
    intro q hq
    rw [hp] at hq
    exact mem_range'_le len (first / rows + 1) q hq

/-- C7 witness: with one record selected, target 3, one-record pages and page
2 failing, the one collected record is in the final selection, an error toast
shows, and exactly pages 1 and 2 were fetched. -/
theorem c7_witness :
    (∀ a ∈ (expRun fetchW 1 0 1 3).collected,
      (lookupSel
        (handleCustomSelection (some 3) [(1, mkArt 1)] 0 1 fetchW).selection
        a.id).isSome)
    ∧ ToastSeverity.error
        ∈ (handleCustomSelection (some 3) [(1, mkArt 1)] 0 1 fetchW).toasts
    ∧ ∃ len, (handleCustomSelection (some 3) [(1, mkArt 1)] 0 1 fetchW).pagesFetched
          = List.range' (0 / 1 + 1) (len + 1)
        ∧ fetchW (0 / 1 + 1 + len) = none
        ∧ ∀ q ∈ (handleCustomSelection (some 3) [(1, mkArt 1)] 0 1 fetchW).pagesFetched,
            q ≤ 0 / 1 + 1 + len :=
  c7_partial_failure [(1, mkArt 1)] 0 1 3 fetchW (by decide) (by decide)

/-! ### C1 -/

/-- C1 counterexample: selection of size 1 holding id 101, target 2, catalog
of total 2 records starting with the already-selected id 101, every fetch
succeeding: the final selection has size 1, not `min(target, total) = 2`,
because the duplicate consumed the quota and was then skipped at insertion. -/
theorem c1_counterexample :
    (handleCustomSelection (some 2) cSelDup 0 12
      (fetchCatalog cCatDup 12)).selection.length ≠ min 2 cCatDup.length := by
  decide

/-- C1 (amended): with `target > current size`, if every collected record's
identifier is fresh (not already selected, no repeats among the collected
run), the final size is `current size + number collected` — in particular,
when a fetch fails partway, `current size` plus the records collected before
the failure; and when all fetches are served from a stable catalog that
still holds at least `needed` records from the currently displayed page's
offset on, the collected count is exactly `needed`, so the final size is
exactly `target`. -/
theorem c1_expansion_size (sel : Selection) (first rows n : Nat)
    (fetch : Nat → Option (List Artwork)) (catalog : List Artwork)
    (hgt : sel.length < n) (hrows : 0 < rows) :
    (((expRun fetch sel.length first rows n).collected.map fun a => a.id).Nodup →
      (∀ a ∈ (expRun fetch sel.length first rows n).collected,
        lookupSel sel a.id = none) →
      (handleCustomSelection (some n) sel first rows fetch).selection.length
        = sel.length + (expRun fetch sel.length first rows n).collected.length)
    ∧ (n - sel.length ≤ (catalog.drop (first / rows * rows)).length →
      (((expRun (fetchCatalog catalog rows) sel.length first rows n).collected.map
          fun a => a.id).Nodup →
      (∀ a ∈ (expRun (fetchCatalog catalog rows) sel.length first rows n).collected,
        lookupSel sel a.id = none) →
      (handleCustomSelection (some n) sel first rows
        (fetchCatalog catalog rows)).selection.length = n)) := by
  constructor
  · intro hnd hfresh
    rw [hcs_expand sel first rows n fetch hgt]
    dsimp only
    rw [addNew_length, countNew_of_fresh sel _ hnd hfresh]
  · intro hsupply hnd hfresh
    have hlen : (expRun (fetchCatalog catalog rows) sel.length
        first rows n).collected.length = n - sel.length := by
      rw [expRun_catalog sel.length first rows n catalog hrows, List.length_take]
      omega
    rw [hcs_expand sel first rows n (fetchCatalog catalog rows) hgt]
    dsimp only
    rw [addNew_length, countNew_of_fresh sel _ hnd hfresh, hlen]
    omega

/-- C1 witness: one selected record, target 3, a catalog of three fresh
records with page size 2: the expansion reaches size 3 exactly. -/
theorem c1_witness :
    (handleCustomSelection (some 3) c1Sel 0 2
      (fetchCatalog c1Cat 2)).selection.length = 3 :=
  (c1_expansion_size c1Sel 0 2 3 (fetchCatalog c1Cat 2) c1Cat
    (by decide) (by decide)).2 (by decide) (by decide) (by decide)

/-! ### C2 -/

/-- C2 counterexample: with the first page displayed (first = 0, rows = 12),
the expansion's first fetch is page `first/rows + 1 = 1` — the currently
displayed page itself — not the page after the current window (which would
be page 2). -/
theorem c2_counterexample :
    (handleCustomSelection (some 1) [] 0 12
      (fetchCatalog [mkArt 101] 12)).pagesFetched = [0 / 12 + 1]
    ∧ (0 : Nat) / 12 + 1 ≠ 0 / 12 + 2 := by
  decide

/-- C2 (amended): during bulk expansion the fetched pages form the
consecutive ascending run that starts at the currently displayed page
(`first/rows + 1`), and records are appended in that order: against a stable
catalog the collected run is the contiguous slice of the catalog starting at
the displayed page's offset. -/
theorem c2_fetch_order (sel : Selection) (first rows n : Nat)
    (fetch : Nat → Option (List Artwork)) (catalog : List Artwork)
    (hgt : sel.length < n) (hrows : 0 < rows) :
    (handleCustomSelection (some n) sel first rows fetch).pagesFetched
      = List.range' (first / rows + 1)
          (handleCustomSelection (some n) sel first rows fetch).pagesFetched.length
    ∧ (expRun (fetchCatalog catalog rows) sel.length first rows n).collected
      = (catalog.drop (first / rows * rows)).take (n - sel.length) := by
  refine ⟨?_, expRun_catalog sel.length first rows n catalog hrows⟩
  rw [hcs_expand sel first rows n fetch hgt]
  rw [expRun_def]
  dsimp only
  obtain ⟨len, hp⟩ := fetchLoop_pages_range fetch (n - sel.length)
    ((n - sel.length + rows - 1) / rows) (first / rows + 1) []
  rw [hp, List.length_range']

/-- C2 witness: one selected record, target 3, page size 2, first page
displayed: pages 1 and 2 are fetched in order and the collected run is the
first two catalog records. -/
theorem c2_witness :
    (handleCustomSelection (some 3) c1Sel 0 2
      (fetchCatalog c1Cat 2)).pagesFetched
      = List.range' (0 / 2 + 1)
          (handleCustomSelection (some 3) c1Sel 0 2
            (fetchCatalog c1Cat 2)).pagesFetched.length
    ∧ (expRun (fetchCatalog c1Cat 2) c1Sel.length 0 2 3).collected
      = (c1Cat.drop (0 / 2 * 2)).take (3 - c1Sel.length) :=
  c2_fetch_order c1Sel 0 2 3 (fetchCatalog c1Cat 2) c1Cat (by decide) (by decide)

/-! ### C3 -/

/-- C3 counterexample: with id 101 already selected and a catalog whose next
records start with that same id 101, the collected run of the expansion
contains a record whose identifier is already selected — collected records
are not filtered against the selection, contradicting the claim that every
record counted toward the quota is new. -/
theorem c3_counterexample :
    ¬ ∀ a ∈ (expRun (fetchCatalog cCatDup 12) cSelDup.length 0 12 2).collected,
      lookupSel cSelDup a.id = none := by
  decide

/-- C3 (amended): the collection loop counts every fetched record toward the
`needed` quota whether or not its identifier is already selected; the
deduplication happens only at insertion.  Hence the final size is the prior
size plus the number of collected records whose id is genuinely new
(`countNew`), which can be strictly less than the collected count, itself at
most `needed`. -/
theorem c3_quota_counts_duplicates (sel : Selection) (first rows n : Nat)
    (fetch : Nat → Option (List Artwork)) (hgt : sel.length < n) :
    (handleCustomSelection (some n) sel first rows fetch).selection.length
      = sel.length + countNew sel (expRun fetch sel.length first rows n).collected
    ∧ countNew sel (expRun fetch sel.length first rows n).collected
      ≤ (expRun fetch sel.length first rows n).collected.length
    ∧ (expRun fetch sel.length first rows n).collected.length ≤ n - sel.length := by
  refine ⟨?_, countNew_le_length sel _, ?_⟩
  · rw [hcs_expand sel first rows n fetch hgt]
    dsimp only
    rw [addNew_length]
  · rw [expRun_def]
    exact fetchLoop_length_le fetch (n - sel.length) _ _ [] (by simp)

/-- C3 witness: in the duplicate scenario the final size is 1 = 1 + countNew,
the new-record count 0 is below the collected count 1, which is within the
quota 1. -/
theorem c3_witness :
    (handleCustomSelection (some 2) cSelDup 0 12
      (fetchCatalog cCatDup 12)).selection.length
      = cSelDup.length
        + countNew cSelDup (expRun (fetchCatalog cCatDup 12)
            cSelDup.length 0 12 2).collected
    ∧ countNew cSelDup (expRun (fetchCatalog cCatDup 12)
          cSelDup.length 0 12 2).collected
      ≤ (expRun (fetchCatalog cCatDup 12) cSelDup.length 0 12 2).collected.length
    ∧ (expRun (fetchCatalog cCatDup 12)
          cSelDup.length 0 12 2).collected.length ≤ 2 - cSelDup.length :=
  c3_quota_counts_duplicates cSelDup 0 12 2 (fetchCatalog cCatDup 12) (by decide)
